import Mathlib

/-!
Shallow embedding of `cafetch.go` (package main): a single-shot CLI that
collects host information into a `SystemInfo` record and renders it.

Ambient OS state (pseudo-files, environment variables, the `uname -r`
command, the `statfs` syscall) is injected as an explicit `HostEnv`
parameter; every resolver is embedded as a pure function of that state.
Files read line-by-line through `bufio.Scanner` are modelled as
`Option (List String)` (`none` = unreadable); `/proc/uptime`, read whole
through `os.ReadFile`, is modelled as `Option String`.

Go `int`/`int64` values are modelled as `Int` (with explicit clamping
where `strconv` clamps), `uint64` arithmetic as `Nat` with explicit
`% 2^64`, and the `float64` conversion in `getDisk` through `roundF64`
(round-to-nearest-even at 53 bits of precision, exact for the `uint64`
range). `strconv.ParseFloat` in `getUptime` is modelled exactly: the
token grammar is ported from strconv (`special`/`readFloat`/
`underscoreOK`) and the numeric result is the correctly rounded nearest
float64 of the token's exact value, computed in integer arithmetic.
Percentages computed in `float64` by `printInfo` are modelled
over `ℚ`; for every concrete value appearing in the claims the `float64`
computation is exact, so the idealisation is faithful there.
-/

/-! ## Go string primitives -/

/-- Boolean test that `p` is a character-list prefix of `s`
(models `strings.HasPrefix` on the underlying runes). -/
def isPrefL : List Char → List Char → Bool
  | [], _ => true
  | _ :: _, [] => false
  | p :: ps, c :: cs => p == c && isPrefL ps cs

/-- Models Go `strings.HasPrefix s p`. -/
def goStartsWith (s p : String) : Bool :=
  isPrefL p.data s.data

/-- Models Go `strings.TrimPrefix s p`: drop `p` from the front of `s`
when it is a prefix, otherwise return `s` unchanged. -/
def goAfterPref (s p : String) : String :=
  if goStartsWith s p then ⟨s.data.drop p.data.length⟩ else s

/-- Models Go `strings.Trim s cutset` for a one-character cutset:
remove all leading and trailing occurrences of `c`. -/
def goTrimChar (s : String) (c : Char) : String :=
  ⟨((s.data.dropWhile (· == c)).reverse.dropWhile (· == c)).reverse⟩

/-- Models Go `strings.TrimSpace`: remove leading and trailing
whitespace (whitespace per `Char.isWhitespace`, which covers the
characters that occur in this program's inputs). -/
def goTrimSpace (s : String) : String :=
  ⟨((s.data.dropWhile Char.isWhitespace).reverse.dropWhile Char.isWhitespace).reverse⟩

/-- Accumulator loop behind `goFields`: split a character list on runs of
whitespace. `acc` holds the current (reversed) in-progress field. -/
def splitWsAux : List Char → List Char → List (List Char)
  | [], acc => if acc.isEmpty then [] else [acc.reverse]
  | c :: cs, acc =>
    if c.isWhitespace then
      if acc.isEmpty then splitWsAux cs [] else acc.reverse :: splitWsAux cs []
    else splitWsAux cs (c :: acc)

/-- Models Go `strings.Fields`: the whitespace-separated tokens of `s`,
with no empty tokens. -/
def goFields (s : String) : List String :=
  (splitWsAux s.data []).map fun l => ⟨l⟩

/-- Split a character list at the first occurrence of `c`:
`some (before, after)` when `c` occurs, `none` otherwise. -/
def splitFirst (c : Char) : List Char → Option (List Char × List Char)
  | [] => none
  | x :: xs =>
    if x == c then some ([], xs)
    else
      match splitFirst c xs with
      | none => none
      | some (a, b) => some (x :: a, b)

/-- Models Go `strings.SplitN s sep 2` for a one-character separator:
`[before, after]` split at the first occurrence, or `[s]` when the
separator does not occur. -/
def goSplitN2 (s : String) (c : Char) : List String :=
  match splitFirst c s.data with
  | none => [s]
  | some (a, b) => [⟨a⟩, ⟨b⟩]

/-! ## Go numeric parsing -/

/-- Decimal-digit accumulator behind `parseDigits`. -/
def digitsVal : List Char → Nat → Option Nat
  | [], acc => some acc
  | c :: cs, acc =>
    if c.isDigit then digitsVal cs (acc * 10 + (c.toNat - 48)) else none

/-- Value of a nonempty all-digit character list; `none` when empty or
any character is not a decimal digit. -/
def parseDigits : List Char → Option Nat
  | [] => none
  | ds => digitsVal ds 0

/-- Largest `int64` value, which `strconv.ParseInt` returns (with a range
error the caller of `Atoi` in this program ignores) on positive overflow. -/
def int64Max : Int := 2 ^ 63 - 1

/-- Smallest `int64` value, returned by `strconv.ParseInt` on negative
overflow. -/
def int64Min : Int := -(2 ^ 63)

/-- Models Go `strconv.Atoi` (that is, `ParseInt(s, 10, 0)` on a 64-bit
platform): an optional sign followed by decimal digits; out-of-range
values clamp to `int64Max`/`int64Min`; `none` on any syntax error. -/
def goParseInt (s : String) : Option Int :=
  match s.data with
  | '+' :: ds => (parseDigits ds).map fun n => min (n : Int) int64Max
  | '-' :: ds => (parseDigits ds).map fun n => max (-(n : Int)) int64Min
  | ds => (parseDigits ds).map fun n => min (n : Int) int64Max

/-- The value `getMemory` actually uses: `val, _ := strconv.Atoi(...)`
discards the error, leaving `0` on a syntax error and the clamped value
on a range error. -/
def goAtoiLax (s : String) : Int :=
  (goParseInt s).getD 0

/-! ## The float64 conversion used by getDisk -/

/-- Fuel-driven base-2 logarithm: `log2Fuel fuel n = ⌊log₂ n⌋` whenever
`n < 2 ^ fuel` (and `0` for `n ≤ 1`). Structural recursion on the fuel
keeps it kernel-reducible on concrete inputs. -/
def log2Fuel : Nat → Nat → Nat
  | 0, _ => 0
  | fuel + 1, n => if 2 ≤ n then log2Fuel fuel (n / 2) + 1 else 0

/-- Base-2 logarithm for the `uint64` range (`n < 2^64`), used to locate
the binade of a byte count when it is converted to `float64`. -/
def log2w (n : Nat) : Nat :=
  log2Fuel 64 n

/-- Round `n` to the nearest multiple of `g`, ties to the even multiple
(the IEEE-754 default rounding used by Go's integer-to-float conversion). -/
def roundAt (n g : Nat) : Nat :=
  if 2 * (n % g) < g then n / g * g
  else if g < 2 * (n % g) then (n / g + 1) * g
  else if n / g % 2 = 0 then n / g * g else (n / g + 1) * g

/-- Models Go `float64(n)` for `n` in the `uint64` range: the nearest
`float64` to `n`, i.e. `n` rounded (ties to even) to 53 significant
binary digits. Exact (`roundF64 n = n`) for `n < 2^53`. -/
def roundF64 (n : Nat) : Nat :=
  roundAt n (2 ^ (log2w n - 52))

/-! ## strconv.ParseFloat, as getUptime uses it

The program calls `strconv.ParseFloat(fields[0], 64)` and, when the error
is nil, converts the returned float64 with `int(seconds)`. ParseFloat's
documented semantics is the nearest float64 to the token's exact value,
rounded with ties to even; its error is non-nil exactly for a syntax
error or an overflow beyond the largest float64 (underflow to zero or to
a denormal sets no error in strconv's `floatBits`/`atofHex`). Both the
grammar and the rounding are modelled exactly below, in integer
arithmetic so that concrete tokens evaluate inside the kernel. -/

/-- Base-2 logarithm for arbitrary `Nat` (the fuel `n` is always enough,
since `log2Fuel` consumes one unit per halving). -/
def nlog2 (n : Nat) : Nat :=
  log2Fuel n n

/-- Decide `2 ^ e ≤ num / den` (as rationals) for an integer exponent. -/
def pow2LeRat (e : Int) (num den : Nat) : Bool :=
  match e with
  | .ofNat k => decide (2 ^ k * den ≤ num)
  | .negSucc k => decide (den ≤ 2 ^ (k + 1) * num)

/-- The binade `⌊log₂ (num / den)⌋` of a positive rational. The bit
lengths pin the logarithm to `{e0 - 1, e0}` with
`e0 = nlog2 num - nlog2 den` (since `2^l ≤ x < 2^(l+1)` for `l = nlog2 x`,
the quotient lies strictly between `2^(e0-1)` and `2^(e0+1)`), and the
comparison picks the right one. -/
def rlog2 (num den : Nat) : Int :=
  let e0 : Int := (nlog2 num : Int) - (nlog2 den : Int)
  if pow2LeRat e0 num den then e0 else e0 - 1

/-- Round the rational `p / q` to the nearest integer, ties to even. -/
def roundHalfEven (p q : Nat) : Nat :=
  if 2 * (p % q) < q then p / q
  else if q < 2 * (p % q) then p / q + 1
  else if (p / q) % 2 = 0 then p / q else p / q + 1

/-- A float64 value as `ParseFloat` returns it with a nil error: zero or
a nonzero finite `±m·2^ge`, an infinity (from the `inf`/`infinity`
spellings, which parse without error), or NaN. -/
inductive F64Val where
  | finite (neg : Bool) (m : Nat) (ge : Int)
  | inf (neg : Bool)
  | nan
deriving DecidableEq

/-- Whether the rounded value `m · 2^ge` reaches `2^1024`, i.e. overflows
float64; `ParseFloat` then returns `±Inf` with `ErrRange`. -/
def overflowF64 (m : Nat) (ge : Int) : Bool :=
  match ge with
  | .ofNat k => decide (2 ^ 1024 ≤ m * 2 ^ k)
  | .negSucc k => decide (2 ^ 1024 * 2 ^ (k + 1) ≤ m)

/-- Truncation toward zero of the nonnegative `m · 2^ge`. -/
def truncPow2 (m : Nat) (ge : Int) : Nat :=
  match ge with
  | .ofNat k => m * 2 ^ k
  | .negSucc k => m / 2 ^ (k + 1)

/-- Correctly round the positive rational `num / den` to the nearest
float64 (ties to even): locate the binade `e`, use the granularity
`2^(e-52)` — floored at `2^(-1074)` below the normal range, which yields
the denormals — round the scaled value half-to-even, and signal overflow
(`none`, Go's `ErrRange`) when the result reaches `2^1024`. -/
def roundPosToF64 (neg : Bool) (num den : Nat) : Option F64Val :=
  let e := rlog2 num den
  let ge := max (e - 52) (-1074)
  let p := if 0 ≤ ge then num else num * 2 ^ (-ge).toNat
  let q := if 0 ≤ ge then den * 2 ^ ge.toNat else den
  let m := roundHalfEven p q
  if overflowF64 m ge then none else some (F64Val.finite neg m ge)

/-- The float64 nearest to the decimal literal value `±d · 10^q`;
`none` on overflow. -/
def decToF64 (neg : Bool) (d : Nat) (q : Int) : Option F64Val :=
  if d = 0 then some (F64Val.finite neg 0 0)
  else if 0 ≤ q then roundPosToF64 neg (d * 10 ^ q.toNat) 1
  else roundPosToF64 neg d (10 ^ (-q).toNat)

/-- The float64 nearest to the hexadecimal literal value `±h · 2^q`;
`none` on overflow. -/
def hexToF64 (neg : Bool) (h : Nat) (q : Int) : Option F64Val :=
  if h = 0 then some (F64Val.finite neg 0 0)
  else if 0 ≤ q then roundPosToF64 neg (h * 2 ^ q.toNat) 1
  else roundPosToF64 neg h (2 ^ (-q).toNat)

/-- ASCII lower-casing. strconv's `lower c = c | 0x20` agrees with it on
every comparison the parser makes (equality with `x`, `e`, `p`, and the
ranges `a`–`f`), which is all it is used for. -/
def lowerCh (c : Char) : Char :=
  if 'A' ≤ c ∧ c ≤ 'Z' then Char.ofNat (c.toNat + 32) else c

/-- Split an optional leading sign off a token; `true` means negative. -/
def stripSign : List Char → Bool × List Char
  | '+' :: r => (false, r)
  | '-' :: r => (true, r)
  | r => (false, r)

/-- Value of a decimal digit character. -/
def digitV (c : Char) : Option Nat :=
  if '0' ≤ c ∧ c ≤ '9' then some (c.toNat - 48) else none

/-- Value of a hexadecimal letter digit (`a`–`f`, either case). -/
def hexAlphaV (c : Char) : Option Nat :=
  if 'a' ≤ lowerCh c ∧ lowerCh c ≤ 'f' then some ((lowerCh c).toNat - 87) else none

/-- Value of a mantissa digit in the given base. -/
def mantDigitV (base : Nat) (c : Char) : Option Nat :=
  match digitV c with
  | some d => some d
  | none => if base = 16 then hexAlphaV c else none

/-- Result of the mantissa scan: accumulated digit value, digit count,
position of the dot (digits seen before it), whether any digit and any
underscore were seen, and the unconsumed remainder. -/
structure MantScan where
  acc : Nat
  nd : Nat
  dotPos : Option Nat
  sawdigits : Bool
  sawUnd : Bool
  rest : List Char

/-- Port of the mantissa loop of strconv's `readFloat`: underscores are
skipped here and validated afterwards, a second dot stops the scan, and
any other non-digit stops it. Digits accumulate exactly; `readFloat`
itself truncates its `uint64` mantissa and sets a sticky flag instead,
but the value it goes on to produce is still the correctly rounded one,
which is what the exact accumulation models. (`readFloat` also skips
leading zeros while decrementing its decimal point; that bookkeeping
leaves the represented value unchanged, so plain counting is
equivalent.) -/
def scanMantissa (base : Nat) : List Char → Nat → Nat → Option Nat → Bool → Bool → MantScan
  | [], acc, nd, dp, sd, su => ⟨acc, nd, dp, sd, su, []⟩
  | c :: cs, acc, nd, dp, sd, su =>
    if c = '_' then scanMantissa base cs acc nd dp sd true
    else if c = '.' then
      match dp with
      | some _ => ⟨acc, nd, dp, sd, su, c :: cs⟩
      | none => scanMantissa base cs acc nd (some nd) sd su
    else
      match mantDigitV base c with
      | some d => scanMantissa base cs (acc * base + d) (nd + 1) dp true su
      | none => ⟨acc, nd, dp, sd, su, c :: cs⟩

/-- Port of `readFloat`'s exponent-digit loop, including its cap: a digit
extends the exponent only while it is below 10000. -/
def scanExpDigits : List Char → Nat → Bool → Nat × Bool × List Char
  | [], e, su => (e, su, [])
  | c :: cs, e, su =>
    if c = '_' then scanExpDigits cs e true
    else
      match digitV c with
      | some d => scanExpDigits cs (if e < 10000 then e * 10 + d else e) su
      | none => (e, su, c :: cs)

/-- State machine of strconv's `underscoreOK`: `saw` is the class of the
previous character (`^` start, `0` digit or base prefix, `_`, `!` other);
an underscore must follow and be followed by a digit. -/
def underscoreLoop (hx : Bool) : List Char → Char → Bool
  | [], saw => saw ≠ '_'
  | c :: cs, saw =>
    if ('0' ≤ c ∧ c ≤ '9') ∨ (hx ∧ 'a' ≤ lowerCh c ∧ lowerCh c ≤ 'f') then
      underscoreLoop hx cs '0'
    else if c = '_' then
      if saw ≠ '0' then false else underscoreLoop hx cs '_'
    else if saw = '_' then false
    else underscoreLoop hx cs '!'

/-- Port of strconv's `underscoreOK`: after an optional sign and an
optional `0b`/`0o`/`0x` base prefix (which counts as a digit), underscores
may only separate digits. -/
def underscoreOKGo (s : List Char) : Bool :=
  let s1 := (stripSign s).2
  match s1 with
  | '0' :: c :: rest =>
    if lowerCh c = 'b' ∨ lowerCh c = 'o' ∨ lowerCh c = 'x' then
      underscoreLoop (lowerCh c = 'x') rest '0'
    else underscoreLoop false s1 '^'
  | _ => underscoreLoop false s1 '^'

/-- The exponent part of `readFloat`: the exponent character, an optional
sign, then at least one digit, and nothing after it (`ParseFloat` demands
the whole token be consumed). `none` also when `rest` does not start with
the exponent character, covering trailing junk. -/
def readExpGo (expChar : Char) (rest : List Char) : Option (Int × Bool) :=
  match rest with
  | [] => none
  | c :: cs =>
    if lowerCh c = expChar then
      let sg : Int × List Char :=
        match cs with
        | '+' :: r => (1, r)
        | '-' :: r => (-1, r)
        | r => (1, r)
      match sg.2 with
      | [] => none
      | c2 :: _ =>
        match digitV c2 with
        | none => none
        | some _ =>
          match scanExpDigits sg.2 0 false with
          | (e, su2, rest2) =>
            if rest2.isEmpty then some (sg.1 * (e : Int), su2) else none
    else none

/-- Port of strconv's `readFloat` combined with `ParseFloat`'s
whole-token requirement: optional sign; `0x` with at least one following
character switches to hexadecimal with a mandatory `p` exponent; the
mantissa needs at least one digit; a decimal `e` exponent is optional;
underscores force the `underscoreOK` check on the full token. The result
is the sign, the exact mantissa value, the exponent `q` such that the
token's value is `±M · 10^q` (decimal) or `±M · 2^q` (hexadecimal, with
`q` counting the dot's nibbles as in `readFloat`'s `dp *= 4`), and the
hexadecimal flag. -/
def readFloatGo (cs : List Char) : Option (Bool × Nat × Int × Bool) :=
  let sg := stripSign cs
  let hx :=
    match sg.2 with
    | '0' :: c1 :: _ :: _ => lowerCh c1 = 'x'
    | _ => false
  let base := if hx then 16 else 10
  let expChar := if hx then 'p' else 'e'
  let s2 := if hx then sg.2.drop 2 else sg.2
  let r := scanMantissa base s2 0 0 none false false
  let dp := r.dotPos.getD r.nd
  if r.sawdigits = false then none
  else
    match r.rest with
    | [] =>
      if hx then none
      else if r.sawUnd && !(underscoreOKGo cs) then none
      else some (sg.1, r.acc, (dp : Int) - (r.nd : Int), false)
    | _ =>
      match readExpGo expChar r.rest with
      | none => none
      | some (esgn, su2) =>
        if (r.sawUnd || su2) && !(underscoreOKGo cs) then none
        else
          let q : Int :=
            if hx then esgn + 4 * ((dp : Int) - (r.nd : Int))
            else (dp : Int) - (r.nd : Int) + esgn
          some (sg.1, r.acc, q, hx)

/-- Lower-cased character list, for the special-value comparison. -/
def lowerStr (s : List Char) : List Char :=
  s.map lowerCh

/-- Models `strconv.ParseFloat(tok, 64)` as `getUptime` observes it:
`some f` when the error is nil (with `f` the exactly rounded value),
`none` when the error is non-nil — a syntax error, or an overflow to
`±Inf` with `ErrRange`. The specials mirror strconv's `special`:
`inf`/`infinity` take an optional sign, `nan` does not, all
case-insensitive and whole-token. -/
def goParseFloat (s : String) : Option F64Val :=
  let low := lowerStr s.data
  let sg := stripSign low
  if sg.2 = ['i', 'n', 'f'] ∨ sg.2 = ['i', 'n', 'f', 'i', 'n', 'i', 't', 'y'] then
    some (F64Val.inf sg.1)
  else if low = ['n', 'a', 'n'] then some F64Val.nan
  else
    match readFloatGo s.data with
    | none => none
    | some (neg, m, q, hx) => if hx then hexToF64 neg m q else decToF64 neg m q

/-- Models the `int(seconds)` conversion (line 126): truncation toward
zero whenever the truncated value fits `int64`. For NaN, the infinities
and finite values whose truncation overflows, the Go specification
leaves the result implementation-specific; this program targets linux
(`syscall.Statfs_t`), where the amd64 conversion produces the indefinite
value `-2^63`, modelled by the fallback branch. -/
def goF64ToInt (f : F64Val) : Int :=
  match f with
  | .finite neg m ge =>
    let t : Int := (truncPow2 m ge : Nat)
    let v : Int := if neg then -t else t
    if -(2 ^ 63) ≤ v ∧ v ≤ 2 ^ 63 - 1 then v else int64Min
  | .inf _ => int64Min
  | .nan => int64Min

/-! ## The Collector (cafetch.go lines 16–195) -/

/-- The `SystemInfo` struct (cafetch.go lines 16–19). Go `int` fields are
modelled as `Int`. -/
structure SystemInfo where
  OS : String
  Kernel : String
  Arch : String
  Host : String
  User : String
  Shell : String
  Term : String
  CPU : String
  Uptime : String
  MemUsed : Int
  MemTotal : Int
  DiskUsed : Int
  DiskTotal : Int

/-- The fields of `syscall.Statfs_t` that `getDisk` reads (linux/amd64:
`Blocks uint64`, `Bsize int64`, `Bavail uint64`). -/
structure Statfs_t where
  Blocks : Nat
  Bsize : Int
  Bavail : Nat

/-- The ambient host state the program reads, injected explicitly:
each pseudo-file (`none` = unreadable), the `uname -r` command output
(`none` = command failed), the environment (Go `os.Getenv` returns `""`
for unset variables), the runtime identifiers, and the root-filesystem
`statfs` result (`none` = the syscall failed). -/
structure HostEnv where
  osRelease : Option (List String)
  unameR : Option String
  goos : String
  goarch : String
  env : String → String
  cpuinfo : Option (List String)
  uptime : Option String
  meminfo : Option (List String)
  rootStat : Option Statfs_t

/-- Models `runCmd` (lines 50–56) applied to the captured output of the
external command: `N/A` when the command failed, otherwise the trimmed
output. -/
def runCmd (out : Option String) : String :=
  match out with
  | none => "N/A"
  | some o => goTrimSpace o

/-- Models `getEnvOrDefault` (lines 59–64): the variable's value when it
is set and nonempty, the default otherwise. -/
def getEnvOrDefault (env : String → String) (key dflt : String) : String :=
  if env key ≠ "" then env key else dflt

/-- The scanner loop of `getOS` (lines 76–83): return the quote-trimmed
value of the first `PRETTY_NAME=` line, or `runtime.GOOS` when no line
matches. -/
def scanOS : List String → String → String
  | [], goos => goos
  | l :: ls, goos =>
    if goStartsWith l "PRETTY_NAME=" then
      goTrimChar (goAfterPref l "PRETTY_NAME=") '"'
    else scanOS ls goos

/-- Models `getOS` (lines 67–84): `runtime.GOOS` when `/etc/os-release`
cannot be opened, otherwise the result of the scanner loop. -/
def getOS (contents : Option (List String)) (goos : String) : String :=
  match contents with
  | none => goos
  | some lines => scanOS lines goos

/-- The scanner loop of `getCPU` (lines 95–105): on the first
`model name`-prefixed line that contains a colon, return the trimmed
text after the first colon; keep scanning past prefixed lines with no
colon; `N/A` when the scan ends. -/
def scanCPU : List String → String
  | [] => "N/A"
  | l :: ls =>
    if goStartsWith l "model name" then
      match goSplitN2 l ':' with
      | [_, post] => goTrimSpace post
      | _ => scanCPU ls
    else scanCPU ls

/-- Models `getCPU` (lines 87–106): `N/A` when `/proc/cpuinfo` cannot be
opened, otherwise the result of the scanner loop. -/
def getCPU (contents : Option (List String)) : String :=
  match contents with
  | none => "N/A"
  | some lines => scanCPU lines

/-- The arithmetic and formatting tail of `getUptime` (lines 125–134) on
the truncated second count `s`, with Go's truncated `/` and `%` on `int`. -/
def formatUptime (s : Int) : String :=
  let days := s.tdiv 86400
  let hours := (s.tmod 86400).tdiv 3600
  let minutes := (s.tmod 3600).tdiv 60
  if 0 < days then
    toString days ++ "d " ++ toString hours ++ "h " ++ toString minutes ++ "m"
  else
    toString hours ++ "h " ++ toString minutes ++ "m"

/-- Models `getUptime` (lines 109–135): read `/proc/uptime` whole, take
the first whitespace-separated token, parse it with `ParseFloat`, convert
with `int(seconds)`, and format; `N/A` on read failure, an empty field
list, or a non-nil `ParseFloat` error. -/
def getUptime (contents : Option String) : String :=
  match contents with
  | none => "N/A"
  | some data =>
    match goFields data with
    | [] => "N/A"
    | tok :: _ =>
      match goParseFloat tok with
      | none => "N/A"
      | some f => formatUptime (goF64ToInt f)

/-- The first whitespace-separated token of an uptime file, `none` when
there is none. Used to state which files the uptime claim covers. -/
def firstTok (data : String) : Option String :=
  match goFields data with
  | [] => none
  | tok :: _ => some tok

/-- The scanner loop of `getMemory` (lines 148–170) with its two
accumulators: skip lines with fewer than two fields; record `fields[1]`
(error-discarding `Atoi`) under the matching accumulator on
`MemTotal:`/`MemAvailable:`-prefixed lines; stop early once both
accumulators are positive. -/
def scanMem : List String → Int → Int → Int × Int
  | [], t, a => (t, a)
  | l :: ls, t, a =>
    if (goFields l).length < 2 then scanMem ls t a
    else
      let val := goAtoiLax ((goFields l).getD 1 "")
      let t' := if goStartsWith l "MemTotal:" then val else t
      let a' := if goStartsWith l "MemAvailable:" then val else a
      if 0 < t' ∧ 0 < a' then (t', a') else scanMem ls t' a'

/-- Models `getMemory` (lines 138–176), returning `(total, used)` in MB:
`(0, 0)` when `/proc/meminfo` cannot be opened, otherwise
`total = memTotal / 1024` and `used = total - memAvail / 1024` from the
scanner's kilobyte accumulators, with Go's truncated integer division. -/
def getMemory (contents : Option (List String)) : Int × Int :=
  match contents with
  | none => (0, 0)
  | some lines =>
    let ta := scanMem lines 0 0
    (ta.1.tdiv 1024, ta.1.tdiv 1024 - ta.2.tdiv 1024)

/-- The `uint64(stat.Bsize)` conversion in `getDisk`: a negative `int64`
block size wraps modulo `2^64`. -/
def bsizeU (st : Statfs_t) : Nat :=
  (st.Bsize % (2 ^ 64 : Int)).toNat

/-- `totalBytes := stat.Blocks * uint64(stat.Bsize)` (line 186), in
wrapping `uint64` arithmetic. -/
def totalBytes (st : Statfs_t) : Nat :=
  st.Blocks * bsizeU st % 2 ^ 64

/-- `freeBytes := stat.Bavail * uint64(stat.Bsize)` (line 187), in
wrapping `uint64` arithmetic. -/
def freeBytes (st : Statfs_t) : Nat :=
  st.Bavail * bsizeU st % 2 ^ 64

/-- `usedBytes := totalBytes - freeBytes` (line 188): `uint64`
subtraction, which wraps modulo `2^64` when `freeBytes > totalBytes`. -/
def usedBytes (st : Statfs_t) : Nat :=
  (totalBytes st + 2 ^ 64 - freeBytes st) % 2 ^ 64

/-- Models `getDisk` (lines 179–195), returning `(total, used)` in GB:
`(0, 0)` when `statfs` fails, otherwise
`int(float64(bytes) / float64(2^30))` for the total and used byte
counts, which equals `roundF64 bytes / 2^30` (the division by `2^30` and
the truncating `int()` conversion are exact on `float64`; only the
initial `uint64`-to-`float64` conversion rounds). -/
def getDisk (stat : Option Statfs_t) : Int × Int :=
  match stat with
  | none => (0, 0)
  | some st =>
    ((roundF64 (totalBytes st) / 2 ^ 30 : Nat), (roundF64 (usedBytes st) / 2 ^ 30 : Nat))

/-- Models `getSystemInfo` (lines 27–47): assemble the complete snapshot
from the injected host state. -/
def getSystemInfo (h : HostEnv) : SystemInfo :=
  let m := getMemory h.meminfo
  let d := getDisk h.rootStat
  { OS := getOS h.osRelease h.goos
    Kernel := runCmd h.unameR
    Arch := h.goarch
    Host := getEnvOrDefault h.env "HOSTNAME" "N/A"
    User := getEnvOrDefault h.env "USER" "N/A"
    Shell := getEnvOrDefault h.env "SHELL" "N/A"
    Term := getEnvOrDefault h.env "TERM" "N/A"
    CPU := getCPU h.cpuinfo
    Uptime := getUptime h.uptime
    MemUsed := m.2
    MemTotal := m.1
    DiskUsed := d.2
    DiskTotal := d.1 }

/-! ## The Presenter (cafetch.go lines 198–269) -/

/-- ANSI reset sequence (`c["reset"]`). -/
def creset : String := "\x1b[0m"

/-- ANSI bold sequence (`c["bold"]`). -/
def cbold : String := "\x1b[1m"

/-- ANSI cyan sequence (`c["cyan"]`). -/
def ccyan : String := "\x1b[36m"

/-- ANSI magenta sequence (`c["magenta"]`). -/
def cmagenta : String := "\x1b[35m"

/-- ANSI yellow sequence (`c["yellow"]`). -/
def cyellow : String := "\x1b[33m"

/-- ANSI green sequence (`c["green"]`). -/
def cgreen : String := "\x1b[32m"

/-- The fixed coffee-cup logo block (lines 210–217), six lines. -/
def logo : List String :=
  [ccyan ++ "     ( (  " ++ creset,
   ccyan ++ "      ) ) " ++ creset,
   cyellow ++ "  ........ " ++ creset,
   cyellow ++ "  |      |]" ++ creset,
   cyellow ++ "  |      | " ++ creset,
   cyellow ++ "   ======  " ++ creset]

/-- The memory percentage of `printInfo` (lines 220–223): `0.0` unless
`MemTotal > 0`, in which case `MemUsed / MemTotal * 100`. The `float64`
arithmetic is modelled over `ℚ`. -/
def memPercent (info : SystemInfo) : ℚ :=
  if 0 < info.MemTotal then (info.MemUsed : ℚ) / (info.MemTotal : ℚ) * 100 else 0

/-- The disk percentage of `printInfo` (lines 224–227): `0.0` unless
`DiskTotal > 0`, in which case `DiskUsed / DiskTotal * 100`. -/
def diskPercent (info : SystemInfo) : ℚ :=
  if 0 < info.DiskTotal then (info.DiskUsed : ℚ) / (info.DiskTotal : ℚ) * 100 else 0

/-- Models the `%.1f` formatting of a percentage: one decimal digit,
rounding to nearest with ties to even, as Go's `fmt` does on the exact
value. -/
def fmtQ1 (q : ℚ) : String :=
  let sign := if q < 0 then "-" else ""
  let scaled := (if q < 0 then -q else q) * 10
  let n : Int := scaled.floor
  let r := scaled - (n : ℚ)
  let t : Int :=
    if r < 1 / 2 then n
    else if 1 / 2 < r then n + 1
    else if n % 2 = 0 then n else n + 1
  sign ++ toString (t / 10) ++ "." ++ toString (t % 10)

/-- The data block of `printInfo` (lines 230–246), fifteen lines built
from the snapshot; `goVersion` stands for `runtime.Version()` and
`timeStr` for the formatted `time.Now()`. -/
def dataLines (info : SystemInfo) (goVersion timeStr : String) : List String :=
  [cbold ++ info.User ++ "@" ++ info.Host ++ creset,
   ccyan ++ "cafetch" ++ creset ++ " (Go " ++ goVersion ++ ")",
   "",
   cyellow ++ "OS:     " ++ creset ++ info.OS,
   cyellow ++ "Kernel: " ++ creset ++ info.Kernel,
   cyellow ++ "Arch:   " ++ creset ++ info.Arch,
   cyellow ++ "Uptime: " ++ creset ++ info.Uptime,
   "",
   cgreen ++ "CPU:  " ++ creset ++ info.CPU,
   cgreen ++ "Mem:  " ++ creset ++ toString info.MemUsed ++ "MB / " ++
     toString info.MemTotal ++ "MB (" ++ fmtQ1 (memPercent info) ++ "%)",
   cgreen ++ "Disk: " ++ creset ++ toString info.DiskUsed ++ "GB / " ++
     toString info.DiskTotal ++ "GB (" ++ fmtQ1 (diskPercent info) ++ "%)",
   "",
   cmagenta ++ "Shell: " ++ creset ++ info.Shell,
   cmagenta ++ "Term:  " ++ creset ++ info.Term,
   cmagenta ++ "Time:  " ++ creset ++ timeStr]

/-- The `%-20s` padding of the logo column: left-aligned in a minimum
width of 20 runes (Go `fmt` measures width in runes). -/
def padTo20 (s : String) : String :=
  s ++ ⟨List.replicate (20 - s.length) ' '⟩

/-- One output line of `printInfo`'s loop (line 268):
`fmt.Printf("  %-20s  %s\n", logoLine, dataLine)` without the trailing
newline, which the line-list representation carries implicitly. -/
def renderLine (logoLine dataLine : String) : String :=
  "  " ++ padTo20 logoLine ++ "  " ++ dataLine

/-- The lines `printInfo` (lines 248–269) writes to standard output, in
order: `maxLines = max(len(logo), len(data))` combined lines, each
pairing the logo and data lines at the same index and substituting `""`
for the shorter sequence past its end. -/
def printInfoLines (info : SystemInfo) (goVersion timeStr : String) : List String :=
  let lg := logo
  let da := dataLines info goVersion timeStr
  let maxLines := if lg.length < da.length then da.length else lg.length
  (List.range maxLines).map fun i => renderLine (lg.getD i "") (da.getD i "")

/-- The uptime decomposition and formatting exactly as the specification
words it, for comparison with `formatUptime`: `days = s ÷ 86400`,
`hours = (s mod 86400) ÷ 3600`, `minutes = (s mod 3600) ÷ 60`, rendered
`"Dd Hh Mm"` when `days > 0` and `"Hh Mm"` otherwise (`÷`/`mod` being
Go's truncated integer division and remainder). -/
def uptimeSpecFormat (s : Int) : String :=
  let days := s.tdiv 86400
  let hours := (s.tmod 86400).tdiv 3600
  let minutes := (s.tmod 3600).tdiv 60
  if 0 < days then
    toString days ++ "d " ++ toString hours ++ "h " ++ toString minutes ++ "m"
  else
    toString hours ++ "h " ++ toString minutes ++ "m"

/-! ## Helper lemmas: the fuel-driven logarithm -/

/-- The fuel-driven logarithm of `0` is `0` at any fuel. -/
theorem log2Fuel_zero_arg (fuel : Nat) : log2Fuel fuel 0 = 0 := by
  cases fuel <;> rfl

/-- Lower characterisation: with enough fuel, `2 ^ log2Fuel fuel n ≤ n`. -/
theorem log2Fuel_pow_le (fuel : Nat) :
    ∀ n, 1 ≤ n → n < 2 ^ fuel → 2 ^ log2Fuel fuel n ≤ n := by
  induction fuel with
  | zero =>
    intro n h1 h2
    simp only [pow_zero] at h2
    omega
  | succ fuel ih =>
    intro n h1 h2
    by_cases hn : 2 ≤ n
    · have hdiv : 1 ≤ n / 2 := by omega
      have hlt : n / 2 < 2 ^ fuel := by
        rw [pow_succ] at h2
        omega
      have hrec := ih (n / 2) hdiv hlt
      simp only [log2Fuel, if_pos hn, pow_succ]
      omega
    · simp only [log2Fuel, if_neg hn, pow_zero]
      omega

/-- Upper characterisation: with enough fuel, `n < 2 ^ (log2Fuel fuel n + 1)`. -/
theorem log2Fuel_lt_pow (fuel : Nat) :
    ∀ n, n < 2 ^ fuel → n < 2 ^ (log2Fuel fuel n + 1) := by
  induction fuel with
  | zero =>
    intro n h
    simp only [pow_zero] at h
    have hn : n = 0 := by omega
    subst hn
    simp [log2Fuel_zero_arg]
  | succ fuel ih =>
    intro n h
    by_cases hn : 2 ≤ n
    · have hlt : n / 2 < 2 ^ fuel := by
        rw [pow_succ] at h
        omega
      have hrec := ih (n / 2) hlt
      simp only [log2Fuel, if_pos hn]
      rw [pow_succ]
      omega
    · simp only [log2Fuel, if_neg hn, pow_one]
      omega

/-- Monotonicity of the fuel-driven logarithm on its valid range. -/
theorem log2Fuel_mono (fuel : Nat) :
    ∀ m n, m ≤ n → n < 2 ^ fuel → log2Fuel fuel m ≤ log2Fuel fuel n := by
  induction fuel with
  | zero =>
    intro m n _ _
    simp [log2Fuel]
  | succ fuel ih =>
    intro m n hmn hn
    by_cases hm : 2 ≤ m
    · have hn2 : 2 ≤ n := le_trans hm hmn
      simp only [log2Fuel, if_pos hm, if_pos hn2]
      have := ih (m / 2) (n / 2) (Nat.div_le_div_right hmn) (by rw [pow_succ] at hn; omega)
      omega
    · simp only [log2Fuel, if_neg hm]
      exact Nat.zero_le _

/-! ## Helper lemmas: round-to-nearest-even -/

/-- `roundAt` never rounds below the enclosing lower multiple of `g`. -/
theorem roundAt_lb (n g : Nat) : n / g * g ≤ roundAt n g := by
  have h : n / g * g ≤ (n / g + 1) * g := Nat.mul_le_mul_right g (Nat.le_succ _)
  unfold roundAt
  split_ifs <;> omega

/-- `roundAt` never rounds above the enclosing upper multiple of `g`. -/
theorem roundAt_ub (n g : Nat) : roundAt n g ≤ (n / g + 1) * g := by
  have h : n / g * g ≤ (n / g + 1) * g := Nat.mul_le_mul_right g (Nat.le_succ _)
  unfold roundAt
  split_ifs <;> omega

/-- Rounding at a fixed granularity is monotone. -/
theorem roundAt_mono (g : Nat) {x y : Nat} (hxy : x ≤ y) :
    roundAt x g ≤ roundAt y g := by
  have hq : x / g ≤ y / g := Nat.div_le_div_right hxy
  rcases Nat.lt_or_ge (x / g) (y / g) with hlt | hge
  · calc roundAt x g ≤ (x / g + 1) * g := roundAt_ub x g
      _ ≤ y / g * g := Nat.mul_le_mul_right g (by omega)
      _ ≤ roundAt y g := roundAt_lb y g
  · have heq : x / g = y / g := le_antisymm hq hge
    have hx := Nat.div_add_mod x g
    have hy := Nat.div_add_mod y g
    rw [heq] at hx
    have hr : x % g ≤ y % g := by omega
    have hAB : y / g * g ≤ (y / g + 1) * g := Nat.mul_le_mul_right g (Nat.le_succ _)
    unfold roundAt
    rw [heq]
    split_ifs <;> omega

/-- Below `2^53` the float64 conversion is exact. -/
theorem roundF64_small {n : Nat} (h : n < 2 ^ 53) : roundF64 n = n := by
  have hlog : log2w n - 52 = 0 := by
    rcases Nat.eq_zero_or_pos n with h0 | h1
    · subst h0
      have : log2w 0 = 0 := log2Fuel_zero_arg 64
      omega
    · have hle : log2w n ≤ 52 := by
        by_contra hc
        push_neg at hc
        have h64 : n < 2 ^ 64 := lt_trans h (by norm_num)
        have hp := log2Fuel_pow_le 64 n h1 h64
        have hc2 : 52 < log2Fuel 64 n := hc
        have hpp : (2 : Nat) ^ 53 ≤ 2 ^ log2Fuel 64 n :=
          Nat.pow_le_pow_right (by norm_num) (by omega)
        omega
      omega
  rw [roundF64, hlog, pow_zero]
  simp [roundAt, Nat.mod_one, Nat.div_one]

/-- The float64 conversion is monotone on the `uint64` range. -/
theorem roundF64_mono {x y : Nat} (hxy : x ≤ y) (hy : y < 2 ^ 64) :
    roundF64 x ≤ roundF64 y := by
  have hx : x < 2 ^ 64 := lt_of_le_of_lt hxy hy
  have hm : log2w x ≤ log2w y := log2Fuel_mono 64 x y hxy hy
  rcases Nat.eq_or_lt_of_le hm with heq | hlt
  · rw [roundF64, roundF64, heq]
    exact roundAt_mono _ hxy
  · have hy0 : 1 ≤ y := by
      rcases Nat.eq_zero_or_pos y with h0 | h1
      · exfalso
        have hx0 : x = 0 := by omega
        rw [h0, hx0] at hlt
        exact absurd hlt (lt_irrefl _)
      · exact h1
    have hxlt : x < 2 ^ (log2w x + 1) := log2Fuel_lt_pow 64 x hx
    have hyge : 2 ^ log2w y ≤ y := log2Fuel_pow_le 64 y hy0 hy
    have hgx : (2 : Nat) ^ (log2w x + 1) =
        2 ^ (log2w x + 1 - (log2w x - 52)) * 2 ^ (log2w x - 52) := by
      rw [← pow_add]
      congr 1
      omega
    have h1 : roundF64 x ≤ 2 ^ (log2w x + 1) := by
      have hub := roundAt_ub x (2 ^ (log2w x - 52))
      have hlt2 : x / 2 ^ (log2w x - 52) < 2 ^ (log2w x + 1 - (log2w x - 52)) := by
        apply Nat.div_lt_of_lt_mul
        rw [mul_comm]
        calc x < 2 ^ (log2w x + 1) := hxlt
          _ = 2 ^ (log2w x + 1 - (log2w x - 52)) * 2 ^ (log2w x - 52) := hgx
      calc roundF64 x ≤ (x / 2 ^ (log2w x - 52) + 1) * 2 ^ (log2w x - 52) := hub
        _ ≤ 2 ^ (log2w x + 1 - (log2w x - 52)) * 2 ^ (log2w x - 52) :=
          Nat.mul_le_mul_right _ (by omega)
        _ = 2 ^ (log2w x + 1) := hgx.symm
    have h2 : (2 : Nat) ^ (log2w x + 1) ≤ 2 ^ log2w y :=
      Nat.pow_le_pow_right (by norm_num) (by omega)
    have hgy : (2 : Nat) ^ log2w y =
        2 ^ (log2w y - (log2w y - 52)) * 2 ^ (log2w y - 52) := by
      rw [← pow_add]
      congr 1
      omega
    have h3 : (2 : Nat) ^ log2w y ≤ roundF64 y := by
      have hlb := roundAt_lb y (2 ^ (log2w y - 52))
      have hqge : 2 ^ (log2w y - (log2w y - 52)) ≤ y / 2 ^ (log2w y - 52) := by
        rw [Nat.le_div_iff_mul_le (pow_pos (by norm_num) _)]
        calc 2 ^ (log2w y - (log2w y - 52)) * 2 ^ (log2w y - 52)
            = 2 ^ log2w y := hgy.symm
          _ ≤ y := hyge
      calc (2 : Nat) ^ log2w y
          = 2 ^ (log2w y - (log2w y - 52)) * 2 ^ (log2w y - 52) := hgy
        _ ≤ y / 2 ^ (log2w y - 52) * 2 ^ (log2w y - 52) :=
          Nat.mul_le_mul_right _ hqge
        _ ≤ roundF64 y := hlb
    omega

/-! ## Helper lemmas: the scanner loops -/

/-- `scanOS` passes over lines that do not carry the `PRETTY_NAME=` prefix. -/
theorem scanOS_skip (p rest : List String) (g : String)
    (h : ∀ l ∈ p, goStartsWith l "PRETTY_NAME=" = false) :
    scanOS (p ++ rest) g = scanOS rest g := by
  induction p with
  | nil => rfl
  | cons hd tl ih =>
    have h1 := h hd (List.mem_cons_self hd tl)
    rw [List.cons_append]
    simp only [scanOS, h1, Bool.false_eq_true, if_false]
    exact ih fun l hl => h l (List.mem_cons_of_mem hd hl)

/-- `scanOS` falls back to its second argument when no line matches. -/
theorem scanOS_none (lines : List String) (g : String)
    (h : ∀ l ∈ lines, goStartsWith l "PRETTY_NAME=" = false) :
    scanOS lines g = g := by
  have hs := scanOS_skip lines [] g h
  rw [List.append_nil] at hs
  exact hs

/-- `scanCPU` passes over lines that do not carry the `model name` prefix. -/
theorem scanCPU_skip (p rest : List String)
    (h : ∀ l ∈ p, goStartsWith l "model name" = false) :
    scanCPU (p ++ rest) = scanCPU rest := by
  induction p with
  | nil => rfl
  | cons hd tl ih =>
    have h1 := h hd (List.mem_cons_self hd tl)
    rw [List.cons_append]
    simp only [scanCPU, h1, Bool.false_eq_true, if_false]
    exact ih fun l hl => h l (List.mem_cons_of_mem hd hl)

/-- `scanCPU` returns the sentinel when no line matches. -/
theorem scanCPU_none (lines : List String)
    (h : ∀ l ∈ lines, goStartsWith l "model name" = false) :
    scanCPU lines = "N/A" := by
  have hs := scanCPU_skip lines [] h
  rw [List.append_nil] at hs
  exact hs

/-- `scanMem` passes over lines that carry neither accumulator prefix, as
long as the early-exit condition does not hold of the accumulators. -/
theorem scanMem_skip (p rest : List String) (t a : Int)
    (hcl : ∀ l ∈ p, goStartsWith l "MemTotal:" = false ∧ goStartsWith l "MemAvailable:" = false)
    (hta : ¬(0 < t ∧ 0 < a)) :
    scanMem (p ++ rest) t a = scanMem rest t a := by
  induction p with
  | nil => rfl
  | cons hd tl ih =>
    have h1 := (hcl hd (List.mem_cons_self hd tl)).1
    have h2 := (hcl hd (List.mem_cons_self hd tl)).2
    have ih2 := ih fun l hl => hcl l (List.mem_cons_of_mem hd hl)
    rw [List.cons_append]
    by_cases hf : (goFields hd).length < 2
    · simp only [scanMem]
      rw [if_pos hf]
      exact ih2
    · simp only [scanMem]
      rw [if_neg hf]
      simp only [h1, h2, Bool.false_eq_true, if_false]
      rw [if_neg hta]
      exact ih2

/-- `scanMem` returns its accumulators unchanged on a run of lines with
neither prefix. -/
theorem scanMem_none (lines : List String) (t a : Int)
    (hcl : ∀ l ∈ lines, goStartsWith l "MemTotal:" = false ∧ goStartsWith l "MemAvailable:" = false)
    (hta : ¬(0 < t ∧ 0 < a)) :
    scanMem lines t a = (t, a) := by
  have hs := scanMem_skip lines [] t a hcl hta
  rw [List.append_nil] at hs
  exact hs

/-- When the unique `MemTotal:` line precedes the unique `MemAvailable:`
line, the scanner returns exactly their parsed `fields[1]` values. -/
theorem scanMem_total_first (p1 p2 p3 : List String) (lt la : String)
    (hcl : ∀ l ∈ p1 ++ p2 ++ p3,
      goStartsWith l "MemTotal:" = false ∧ goStartsWith l "MemAvailable:" = false)
    (hlt : goStartsWith lt "MemTotal:" = true)
    (hltA : goStartsWith lt "MemAvailable:" = false)
    (hla : goStartsWith la "MemAvailable:" = true)
    (hlaT : goStartsWith la "MemTotal:" = false)
    (hltf : 2 ≤ (goFields lt).length) (hlaf : 2 ≤ (goFields la).length) :
    scanMem (p1 ++ lt :: (p2 ++ la :: p3)) 0 0 =
      (goAtoiLax ((goFields lt).getD 1 ""), goAtoiLax ((goFields la).getD 1 "")) := by
  have hcl1 : ∀ l ∈ p1,
      goStartsWith l "MemTotal:" = false ∧ goStartsWith l "MemAvailable:" = false :=
    fun l hl => hcl l (by simp [List.mem_append, hl])
  have hcl2 : ∀ l ∈ p2,
      goStartsWith l "MemTotal:" = false ∧ goStartsWith l "MemAvailable:" = false :=
    fun l hl => hcl l (by simp [List.mem_append, hl])
  have hcl3 : ∀ l ∈ p3,
      goStartsWith l "MemTotal:" = false ∧ goStartsWith l "MemAvailable:" = false :=
    fun l hl => hcl l (by simp [List.mem_append, hl])
  rw [scanMem_skip p1 _ 0 0 hcl1 (by omega)]
  simp only [scanMem]
  rw [if_neg (by omega : ¬(goFields lt).length < 2)]
  simp only [hlt, hltA, Bool.false_eq_true, if_false, if_true]
  rw [if_neg (by omega : ¬(0 < goAtoiLax ((goFields lt).getD 1 "") ∧ 0 < (0 : Int)))]
  rw [scanMem_skip p2 _ _ _ hcl2 (by omega)]
  simp only [scanMem]
  rw [if_neg (by omega : ¬(goFields la).length < 2)]
  simp only [hla, hlaT, Bool.false_eq_true, if_false, if_true]
  by_cases hb : 0 < goAtoiLax ((goFields lt).getD 1 "") ∧ 0 < goAtoiLax ((goFields la).getD 1 "")
  · rw [if_pos hb]
  · rw [if_neg hb]
    exact scanMem_none p3 _ _ hcl3 hb

/-- When the unique `MemAvailable:` line precedes the unique `MemTotal:`
line, the scanner still returns exactly their parsed `fields[1]` values. -/
theorem scanMem_avail_first (p1 p2 p3 : List String) (lt la : String)
    (hcl : ∀ l ∈ p1 ++ p2 ++ p3,
      goStartsWith l "MemTotal:" = false ∧ goStartsWith l "MemAvailable:" = false)
    (hlt : goStartsWith lt "MemTotal:" = true)
    (hltA : goStartsWith lt "MemAvailable:" = false)
    (hla : goStartsWith la "MemAvailable:" = true)
    (hlaT : goStartsWith la "MemTotal:" = false)
    (hltf : 2 ≤ (goFields lt).length) (hlaf : 2 ≤ (goFields la).length) :
    scanMem (p1 ++ la :: (p2 ++ lt :: p3)) 0 0 =
      (goAtoiLax ((goFields lt).getD 1 ""), goAtoiLax ((goFields la).getD 1 "")) := by
  have hcl1 : ∀ l ∈ p1,
      goStartsWith l "MemTotal:" = false ∧ goStartsWith l "MemAvailable:" = false :=
    fun l hl => hcl l (by simp [List.mem_append, hl])
  have hcl2 : ∀ l ∈ p2,
      goStartsWith l "MemTotal:" = false ∧ goStartsWith l "MemAvailable:" = false :=
    fun l hl => hcl l (by simp [List.mem_append, hl])
  have hcl3 : ∀ l ∈ p3,
      goStartsWith l "MemTotal:" = false ∧ goStartsWith l "MemAvailable:" = false :=
    fun l hl => hcl l (by simp [List.mem_append, hl])
  rw [scanMem_skip p1 _ 0 0 hcl1 (by omega)]
  simp only [scanMem]
  rw [if_neg (by omega : ¬(goFields la).length < 2)]
  simp only [hla, hlaT, Bool.false_eq_true, if_false, if_true]
  rw [if_neg (by omega : ¬(0 < (0 : Int) ∧ 0 < goAtoiLax ((goFields la).getD 1 "")))]
  rw [scanMem_skip p2 _ _ _ hcl2 (by omega)]
  simp only [scanMem]
  rw [if_neg (by omega : ¬(goFields lt).length < 2)]
  simp only [hlt, hltA, Bool.false_eq_true, if_false, if_true]
  by_cases hb : 0 < goAtoiLax ((goFields lt).getD 1 "") ∧ 0 < goAtoiLax ((goFields la).getD 1 "")
  · rw [if_pos hb]
  · rw [if_neg hb]
    exact scanMem_none p3 _ _ hcl3 hb

/-- `getMemory` on readable content, written through the scanner. -/
theorem getMemory_some (lines : List String) :
    getMemory (some lines) =
      ((scanMem lines 0 0).1.tdiv 1024,
       (scanMem lines 0 0).1.tdiv 1024 - (scanMem lines 0 0).2.tdiv 1024) := rfl

/-- `getUptime` on readable content, written through `firstTok`. -/
theorem getUptime_some (data : String) :
    getUptime (some data) =
      match firstTok data with
      | none => "N/A"
      | some tok =>
        match goParseFloat tok with
        | none => "N/A"
        | some f => formatUptime (goF64ToInt f) := by
  cases hgf : goFields data with
  | nil => simp only [getUptime, firstTok, hgf]
  | cons tok rest =>
    cases hp : goParseFloat tok with
    | none => simp only [getUptime, firstTok, hgf, hp]
    | some f => simp only [getUptime, firstTok, hgf, hp]

/-- Concrete evaluation of the percentage formatting at `75`. -/
theorem fmtQ1_seventyfive : fmtQ1 75 = "75.0" := by
  have h0 : ¬((75 : ℚ) < 0) := by norm_num
  simp only [fmtQ1, if_neg h0]
  have hs : (75 : ℚ) * 10 = ((750 : Int) : ℚ) := by norm_num
  rw [hs]
  have hf : (((750 : Int) : ℚ)).floor = 750 := by
    rw [Rat.floor_def']
    norm_num
  rw [hf]
  rw [if_pos (by rw [sub_self] ; norm_num : ((750 : Int) : ℚ) - ((750 : Int) : ℚ) < 1 / 2)]
  decide

/-- Concrete evaluation of the percentage formatting at `60`. -/
theorem fmtQ1_sixty : fmtQ1 60 = "60.0" := by
  have h0 : ¬((60 : ℚ) < 0) := by norm_num
  simp only [fmtQ1, if_neg h0]
  have hs : (60 : ℚ) * 10 = ((600 : Int) : ℚ) := by norm_num
  rw [hs]
  have hf : (((600 : Int) : ℚ)).floor = 600 := by
    rw [Rat.floor_def']
    norm_num
  rw [hf]
  rw [if_pos (by rw [sub_self] ; norm_num : ((600 : Int) : ℚ) - ((600 : Int) : ℚ) < 1 / 2)]
  decide

/-! ## Claim theorems -/

/-- C1: collection is total. For every host state, `getSystemInfo`
produces a complete `SystemSnapshot`; whenever a source is unavailable
the affected field carries its defined fallback (`"N/A"`, the runtime
platform identifier for the OS name, or `0` for the integer pairs), and
no resolver propagates an error. -/
theorem collection_is_total (h : HostEnv) :
    (getSystemInfo { h with osRelease := none }).OS = h.goos ∧
    (getSystemInfo { h with unameR := none }).Kernel = "N/A" ∧
    (getSystemInfo h).Arch = h.goarch ∧
    (getSystemInfo { h with env := fun _ => "" }).Host = "N/A" ∧
    (getSystemInfo { h with env := fun _ => "" }).User = "N/A" ∧
    (getSystemInfo { h with env := fun _ => "" }).Shell = "N/A" ∧
    (getSystemInfo { h with env := fun _ => "" }).Term = "N/A" ∧
    (getSystemInfo { h with cpuinfo := none }).CPU = "N/A" ∧
    (getSystemInfo { h with uptime := none }).Uptime = "N/A" ∧
    (getSystemInfo { h with meminfo := none }).MemTotal = 0 ∧
    (getSystemInfo { h with meminfo := none }).MemUsed = 0 ∧
    (getSystemInfo { h with rootStat := none }).DiskTotal = 0 ∧
    (getSystemInfo { h with rootStat := none }).DiskUsed = 0 := by
  refine ⟨rfl, rfl, rfl, ?_, ?_, ?_, ?_, rfl, rfl, rfl, rfl, rfl, rfl⟩ <;>
    simp [getSystemInfo, getEnvOrDefault]

set_option maxRecDepth 20000 in
/-- C3: for every uptime file whose first token `ParseFloat` accepts as a
float64 value, the resolver truncates that value to integer seconds
(whenever the truncation fits `int64`, the only range where Go defines
the conversion), decomposes and formats exactly as the spec states
(`days = s ÷ 86400`, `hours = (s mod 86400) ÷ 3600`,
`minutes = (s mod 3600) ÷ 60`, `"Dd Hh Mm"` when `days > 0`, else
`"Hh Mm"`); 90061 s ⇒ `1d 1h 1m`, 3661 s ⇒ `1h 1m`, 59 s ⇒ `0h 0m`; any
read or parse failure yields `N/A`. The concrete files exercise the
rounding (`59.9999999999999999` parses to exactly `60.0`, so the program
prints `0h 1m`) and the exponent form (`1e3` ⇒ `0h 16m`). -/
theorem uptime_format_correct :
    (∀ s : Int, formatUptime s = uptimeSpecFormat s) ∧
    (∀ data tok f, firstTok data = some tok → goParseFloat tok = some f →
      getUptime (some data) = formatUptime (goF64ToInt f)) ∧
    (∀ neg m ge, (truncPow2 m ge : Int) ≤ 2 ^ 63 - 1 →
      goF64ToInt (F64Val.finite neg m ge) =
        if neg then -(truncPow2 m ge : Int) else (truncPow2 m ge : Int)) ∧
    (∀ data tok, firstTok data = some tok → goParseFloat tok = none →
      getUptime (some data) = "N/A") ∧
    (∀ data, firstTok data = none → getUptime (some data) = "N/A") ∧
    getUptime none = "N/A" ∧
    getUptime (some "90061.53 218466.66\n") = "1d 1h 1m" ∧
    getUptime (some "3661.97") = "1h 1m" ∧
    getUptime (some "59.94 13.37") = "0h 0m" ∧
    getUptime (some "59.9999999999999999") = "0h 1m" ∧
    getUptime (some "1e3") = "0h 16m" ∧
    formatUptime 90061 = "1d 1h 1m" ∧
    formatUptime 3661 = "1h 1m" ∧
    formatUptime 59 = "0h 0m" := by
  refine ⟨fun s => rfl, ?_, ?_, ?_, ?_, rfl, by decide, by decide, by decide, by decide,
    by decide, by decide, by decide, by decide⟩
  · intro data tok f h1 h2
    rw [getUptime_some, h1]
    show (match goParseFloat tok with
          | none => "N/A"
          | some f => formatUptime (goF64ToInt f)) = _
    rw [h2]
  · intro neg m ge ht
    have h0 : (0 : Int) ≤ (truncPow2 m ge : Int) := Int.natCast_nonneg _
    cases neg
    · simp only [goF64ToInt, Bool.false_eq_true, if_false]
      rw [if_pos (by omega)]
    · simp only [goF64ToInt, if_true]
      rw [if_pos (by omega)]
  · intro data tok h1 h2
    rw [getUptime_some, h1]
    show (match goParseFloat tok with
          | none => "N/A"
          | some f => formatUptime (goF64ToInt f)) = _
    rw [h2]
  · intro data h1
    rw [getUptime_some, h1]

set_option maxRecDepth 20000 in
/-- Witness for C3: the theorem applied at a concrete parsable file
(`1536.5`, whose float64 value is `6757598464311296 · 2^-42`), at that
value's in-range truncation, at a file with an unparsable token, and at
an empty file. -/
theorem uptime_format_correct_witness :
    getUptime (some "1536.5 99.9") =
      formatUptime (goF64ToInt (F64Val.finite false 6757598464311296 (-42))) ∧
    goF64ToInt (F64Val.finite false 6757598464311296 (-42)) =
      (truncPow2 6757598464311296 (-42) : Int) ∧
    getUptime (some "abc 1.0") = "N/A" ∧
    getUptime (some "") = "N/A" :=
  ⟨uptime_format_correct.2.1 "1536.5 99.9" "1536.5"
      (F64Val.finite false 6757598464311296 (-42)) (by decide) (by decide),
   uptime_format_correct.2.2.1 false 6757598464311296 (-42) (by decide),
   uptime_format_correct.2.2.2.1 "abc 1.0" "abc" (by decide) (by decide),
   uptime_format_correct.2.2.2.2.1 "" (by decide)⟩

/-- C6: the presenter's percentages are `used / total * 100` exactly when
the corresponding total is strictly positive, and exactly `0` when the
total is zero (or negative), so the division never runs with a zero
denominator. -/
theorem percent_guard (info : SystemInfo) :
    (info.MemTotal ≤ 0 → memPercent info = 0) ∧
    (0 < info.MemTotal → memPercent info = (info.MemUsed : ℚ) / (info.MemTotal : ℚ) * 100) ∧
    (info.DiskTotal ≤ 0 → diskPercent info = 0) ∧
    (0 < info.DiskTotal → diskPercent info = (info.DiskUsed : ℚ) / (info.DiskTotal : ℚ) * 100) := by
  refine ⟨fun h => ?_, fun h => ?_, fun h => ?_, fun h => ?_⟩
  · unfold memPercent
    rw [if_neg (not_lt.2 h)]
  · unfold memPercent
    rw [if_pos h]
  · unfold diskPercent
    rw [if_neg (not_lt.2 h)]
  · unfold diskPercent
    rw [if_pos h]

/-- Witness for C6: the guard theorem applied at a zero-total snapshot
and at a positive-total snapshot. -/
theorem percent_guard_witness :
    memPercent ⟨"N/A", "N/A", "N/A", "N/A", "N/A", "N/A", "N/A", "N/A", "N/A", 0, 0, 0, 0⟩ = 0 ∧
    memPercent ⟨"N/A", "N/A", "N/A", "N/A", "N/A", "N/A", "N/A", "N/A", "N/A", 1, 2, 3, 4⟩ =
      ((1 : Int) : ℚ) / ((2 : Int) : ℚ) * 100 ∧
    diskPercent ⟨"N/A", "N/A", "N/A", "N/A", "N/A", "N/A", "N/A", "N/A", "N/A", 0, 0, 0, 0⟩ = 0 ∧
    diskPercent ⟨"N/A", "N/A", "N/A", "N/A", "N/A", "N/A", "N/A", "N/A", "N/A", 1, 2, 3, 4⟩ =
      ((3 : Int) : ℚ) / ((4 : Int) : ℚ) * 100 :=
  ⟨(percent_guard _).1 (by decide), (percent_guard _).2.1 (by decide),
   (percent_guard _).2.2.1 (by decide), (percent_guard _).2.2.2 (by decide)⟩

/-- C9: the presenter writes exactly
`max (number of logo lines) (number of data lines)` lines, pairing the
two sequences index by index and substituting the empty string for the
shorter sequence past its end, so every emitted line is defined. -/
theorem presenter_line_count (info : SystemInfo) (goVersion timeStr : String) :
    (printInfoLines info goVersion timeStr).length =
      max logo.length (dataLines info goVersion timeStr).length ∧
    ∀ i : Nat, (printInfoLines info goVersion timeStr).get? i =
      if i < max logo.length (dataLines info goVersion timeStr).length then
        some (renderLine (logo.getD i "") ((dataLines info goVersion timeStr).getD i ""))
      else none := by
  have hmax : (if logo.length < (dataLines info goVersion timeStr).length then
      (dataLines info goVersion timeStr).length else logo.length) =
      max logo.length (dataLines info goVersion timeStr).length := by
    rcases Nat.lt_or_ge logo.length (dataLines info goVersion timeStr).length with hc | hc
    · rw [if_pos hc, Nat.max_eq_right (le_of_lt hc)]
    · rw [if_neg (not_lt.2 hc), Nat.max_eq_left hc]
  constructor
  · simp only [printInfoLines, List.length_map, List.length_range, hmax]
  · intro i
    simp only [printInfoLines, hmax]
    by_cases hi : i < max logo.length (dataLines info goVersion timeStr).length
    · rw [if_pos hi, List.get?_map, List.get?_range hi]
      rfl
    · rw [if_neg hi, List.get?_map]
      have hnone : (List.range (max logo.length (dataLines info goVersion timeStr).length)).get? i = none := by
        rw [List.get?_eq_none]
        simpa using not_lt.1 hi
      rw [hnone]
      rfl

/-- C10: there is readable memory-info content — a positive `MemAvailable`
value with no `MemTotal` line — for which the memory resolver returns a
strictly negative `Used`, and the negative value reaches the public
snapshot's `MemUsed` field. -/
theorem mem_used_negative :
    getMemory (some ["MemAvailable: 2048 kB"]) = (0, -2) ∧
    (getSystemInfo ⟨none, none, "linux", "amd64", fun _ => "", none, none,
      some ["MemAvailable: 2048 kB"], none⟩).MemUsed = -2 ∧
    (-2 : Int) < 0 :=
  ⟨by decide, by decide, by decide⟩

/-- C2 counterexample: the claim fails as stated. A readable meminfo in
which `Atoi` parses a negative `MemAvailable` value yields
`Total = 2 < Used = 4`; and a statfs result with `Bavail > Blocks` makes
the `uint64` subtraction wrap, yielding `Total = 0 < Used = 17179869184`. -/
theorem total_ge_used_counterexample :
    getMemory (some ["MemTotal: 2048 kB", "MemAvailable: -2048 kB"]) = (2, 4) ∧
    ¬((2 : Int) ≥ 4) ∧
    getDisk (some ⟨1, 1, 2⟩) = (0, 17179869184) ∧
    ¬((0 : Int) ≥ 17179869184) :=
  ⟨by decide, by decide, by decide, by decide⟩

/-- C2 (amended): `Total ≥ Used` holds for the memory pair whenever the
scanner's parsed `MemAvailable` accumulator is nonnegative, and for the
disk pair whenever the computed free bytes do not exceed the computed
total bytes (no `uint64` wraparound); when the underlying source is
unavailable, both members of the affected pair are `0`. -/
theorem total_ge_used_amended :
    (∀ lines : List String, 0 ≤ (scanMem lines 0 0).2 →
      (getMemory (some lines)).2 ≤ (getMemory (some lines)).1) ∧
    getMemory none = (0, 0) ∧
    (∀ st : Statfs_t, freeBytes st ≤ totalBytes st →
      (getDisk (some st)).2 ≤ (getDisk (some st)).1) ∧
    getDisk none = (0, 0) := by
  refine ⟨?_, rfl, ?_, rfl⟩
  · intro lines hA
    rw [getMemory_some]
    have hd : 0 ≤ (scanMem lines 0 0).2.tdiv 1024 := Int.tdiv_nonneg hA (by norm_num)
    show (scanMem lines 0 0).1.tdiv 1024 - (scanMem lines 0 0).2.tdiv 1024 ≤
      (scanMem lines 0 0).1.tdiv 1024
    exact sub_le_self _ hd
  · intro st hfree
    have hT64 : totalBytes st < 2 ^ 64 := by
      unfold totalBytes
      exact Nat.mod_lt _ (by norm_num)
    have hF64 : freeBytes st < 2 ^ 64 := by
      unfold freeBytes
      exact Nat.mod_lt _ (by norm_num)
    have hused : usedBytes st = totalBytes st - freeBytes st := by
      unfold usedBytes
      omega
    show ((roundF64 (usedBytes st) / 2 ^ 30 : Nat) : Int) ≤
      ((roundF64 (totalBytes st) / 2 ^ 30 : Nat) : Int)
    rw [hused]
    exact_mod_cast Nat.div_le_div_right (roundF64_mono (Nat.sub_le _ _) hT64)

/-- Witness for C2 (amended): the theorem applied at real-shaped meminfo
content and a real-shaped statfs result. -/
theorem total_ge_used_amended_witness :
    (getMemory (some ["MemTotal: 2048 kB", "MemAvailable: 1024 kB"])).2 ≤
      (getMemory (some ["MemTotal: 2048 kB", "MemAvailable: 1024 kB"])).1 ∧
    (getDisk (some ⟨26214400, 4096, 10485760⟩)).2 ≤
      (getDisk (some ⟨26214400, 4096, 10485760⟩)).1 :=
  ⟨total_ge_used_amended.1 _ (by decide), total_ge_used_amended.2.2.1 _ (by decide)⟩

/-- C4: when meminfo contains exactly one `MemTotal:` line with
`fields[1]` parsing to `T` kB and exactly one `MemAvailable:` line
parsing to `A` kB (in either order), the resolver returns
`Total = T ÷ 1024` and `Used = Total - A ÷ 1024` (truncated division);
in particular `MemTotal=8000000 kB`, `MemAvailable=2000000 kB` give
`(7812, 5859)`, and the displayed percentage is exactly `75.0`. -/
theorem memory_resolver_correct
    (lines p1 p2 p3 : List String) (lt la : String) (T A : Int)
    (horder : lines = p1 ++ lt :: (p2 ++ la :: p3) ∨ lines = p1 ++ la :: (p2 ++ lt :: p3))
    (hclean : ∀ l ∈ p1 ++ p2 ++ p3,
      goStartsWith l "MemTotal:" = false ∧ goStartsWith l "MemAvailable:" = false)
    (hlt : goStartsWith lt "MemTotal:" = true)
    (hltA : goStartsWith lt "MemAvailable:" = false)
    (hla : goStartsWith la "MemAvailable:" = true)
    (hlaT : goStartsWith la "MemTotal:" = false)
    (hltf : 2 ≤ (goFields lt).length) (hlaf : 2 ≤ (goFields la).length)
    (hT : goAtoiLax ((goFields lt).getD 1 "") = T)
    (hA : goAtoiLax ((goFields la).getD 1 "") = A) :
    getMemory (some lines) = (T.tdiv 1024, T.tdiv 1024 - A.tdiv 1024) ∧
    getMemory (some ["MemTotal:        8000000 kB", "MemAvailable:    2000000 kB"]) =
      (7812, 5859) ∧
    memPercent ⟨"N/A", "N/A", "N/A", "N/A", "N/A", "N/A", "N/A", "N/A", "N/A",
      5859, 7812, 0, 0⟩ = 75 ∧
    fmtQ1 75 = "75.0" := by
  refine ⟨?_, by decide, ?_, fmtQ1_seventyfive⟩
  · rcases horder with h1 | h1
    · subst h1
      rw [getMemory_some,
        scanMem_total_first p1 p2 p3 lt la hclean hlt hltA hla hlaT hltf hlaf, hT, hA]
    · subst h1
      rw [getMemory_some,
        scanMem_avail_first p1 p2 p3 lt la hclean hlt hltA hla hlaT hltf hlaf, hT, hA]
  · norm_num [memPercent]

/-- Witness for C4: the theorem applied at concrete meminfo content with
distractor lines around the two matching lines. -/
theorem memory_resolver_correct_witness :
    getMemory (some (["MemFree:         512 kB"] ++ "MemTotal:        8000000 kB" ::
        (["Buffers:         100 kB"] ++ "MemAvailable:    2000000 kB" :: []))) =
      ((8000000 : Int).tdiv 1024, (8000000 : Int).tdiv 1024 - (2000000 : Int).tdiv 1024) :=
  (memory_resolver_correct _ ["MemFree:         512 kB"] ["Buffers:         100 kB"] []
    "MemTotal:        8000000 kB" "MemAvailable:    2000000 kB" 8000000 2000000
    (Or.inl rfl)
    (by
      intro l hl
      simp only [List.mem_append, List.mem_singleton, List.not_mem_nil, or_false] at hl
      rcases hl with h | h <;> subst h <;> exact ⟨by decide, by decide⟩)
    (by decide) (by decide) (by decide) (by decide) (by decide) (by decide)
    (by decide) (by decide)).1

/-- C5 counterexample: the claim fails as stated. At
`Blocks = 2^63 - 1`, `Bsize = 1`, `Bavail = 0` the float64 conversion
rounds the byte count up before the division, so the code returns
`8589934592` GB where truncated integer division by `2^30` gives
`8589934591`; and at `Bavail > Blocks` the `uint64` subtraction wraps
where the claim's `total - free` with truncation would give `0`. -/
theorem disk_conversion_counterexample :
    getDisk (some ⟨2 ^ 63 - 1, 1, 0⟩) = (8589934592, 8589934592) ∧
    ((2 ^ 63 - 1 : Nat) / 2 ^ 30 : Nat) = 8589934591 ∧
    (8589934592 : Int) ≠ 8589934591 ∧
    Int.tdiv (1 * 1 - 2 * 1) (2 ^ 30) = 0 ∧
    getDisk (some ⟨1, 1, 2⟩) = (0, 17179869184) ∧
    (17179869184 : Int) ≠ 0 :=
  ⟨by decide, by decide, by decide, by decide, by decide, by decide⟩

/-- C5 (amended): for every successful statfs result whose byte counts
stay below `2^53` (where the float64 conversion is exact) and whose free
bytes do not exceed the total bytes, the resolver returns the byte
counts divided by `2^30` and truncated; `total = 100·2^30`,
`free = 40·2^30` give `(100, 60)` and the percentage is exactly `60.0`;
a failed query gives `(0, 0)`. -/
theorem disk_resolver_amended :
    (∀ st : Statfs_t, st.Blocks * bsizeU st < 2 ^ 53 →
      st.Bavail * bsizeU st ≤ st.Blocks * bsizeU st →
      getDisk (some st) =
        (((st.Blocks * bsizeU st / 2 ^ 30 : Nat) : Int),
         (((st.Blocks * bsizeU st - st.Bavail * bsizeU st) / 2 ^ 30 : Nat) : Int))) ∧
    getDisk (some ⟨26214400, 4096, 10485760⟩) = (100, 60) ∧
    diskPercent ⟨"N/A", "N/A", "N/A", "N/A", "N/A", "N/A", "N/A", "N/A", "N/A",
      0, 0, 60, 100⟩ = 60 ∧
    fmtQ1 60 = "60.0" ∧
    getDisk none = (0, 0) := by
  refine ⟨?_, by decide, ?_, fmtQ1_sixty, rfl⟩
  · intro st h53 hle
    have hT : totalBytes st = st.Blocks * bsizeU st := by
      unfold totalBytes
      exact Nat.mod_eq_of_lt (lt_trans h53 (by norm_num))
    have hF : freeBytes st = st.Bavail * bsizeU st := by
      unfold freeBytes
      exact Nat.mod_eq_of_lt (lt_of_le_of_lt hle (lt_trans h53 (by norm_num)))
    have hU : usedBytes st = st.Blocks * bsizeU st - st.Bavail * bsizeU st := by
      unfold usedBytes
      rw [hT, hF]
      omega
    have e1 : roundF64 (totalBytes st) = st.Blocks * bsizeU st := by
      rw [hT]
      exact roundF64_small h53
    have e2 : roundF64 (usedBytes st) = st.Blocks * bsizeU st - st.Bavail * bsizeU st := by
      rw [hU]
      exact roundF64_small (lt_of_le_of_lt (Nat.sub_le _ _) h53)
    show (((roundF64 (totalBytes st) / 2 ^ 30 : Nat) : Int),
      ((roundF64 (usedBytes st) / 2 ^ 30 : Nat) : Int)) = _
    rw [e1, e2]
  · norm_num [diskPercent]

/-- Witness for C5 (amended): the theorem applied at the concrete
100 GB / 40 GB-free statfs result. -/
theorem disk_resolver_amended_witness :
    getDisk (some (⟨26214400, 4096, 10485760⟩ : Statfs_t)) =
      ((((⟨26214400, 4096, 10485760⟩ : Statfs_t).Blocks *
          bsizeU ⟨26214400, 4096, 10485760⟩ / 2 ^ 30 : Nat) : Int),
       ((((⟨26214400, 4096, 10485760⟩ : Statfs_t).Blocks *
           bsizeU ⟨26214400, 4096, 10485760⟩ -
          (⟨26214400, 4096, 10485760⟩ : Statfs_t).Bavail *
           bsizeU ⟨26214400, 4096, 10485760⟩) / 2 ^ 30 : Nat) : Int)) :=
  disk_resolver_amended.1 ⟨26214400, 4096, 10485760⟩ (by decide) (by decide)

/-- C7: the CPU resolver returns the trimmed remainder after the first
colon of the first `model name`-prefixed line, and `N/A` when the file is
unreadable or no line matches. -/
theorem cpu_resolver_correct :
    (∀ lines p l r pre post, lines = p ++ l :: r →
      (∀ l2 ∈ p, goStartsWith l2 "model name" = false) →
      goStartsWith l "model name" = true →
      goSplitN2 l ':' = [pre, post] →
      getCPU (some lines) = goTrimSpace post) ∧
    (∀ lines, (∀ l ∈ lines, goStartsWith l "model name" = false) →
      getCPU (some lines) = "N/A") ∧
    getCPU none = "N/A" := by
  refine ⟨?_, ?_, rfl⟩
  · intro lines p l r pre post hsplit hcl hm hc
    subst hsplit
    show scanCPU (p ++ l :: r) = _
    rw [scanCPU_skip p (l :: r) hcl]
    simp only [scanCPU, hm, eq_self_iff_true, if_true]
    rw [hc]
  · intro lines hcl
    exact scanCPU_none lines hcl

/-- Witness for C7: the theorem applied at a concrete cpuinfo fragment
and at content with no matching line. -/
theorem cpu_resolver_correct_witness :
    getCPU (some (["processor\t: 0"] ++ "model name\t: AMD Ryzen 7 5800X" :: [])) =
      goTrimSpace " AMD Ryzen 7 5800X" ∧
    getCPU (some ["cpu cores\t: 8"]) = "N/A" :=
  ⟨cpu_resolver_correct.1 _ ["processor\t: 0"] "model name\t: AMD Ryzen 7 5800X" []
      "model name\t" " AMD Ryzen 7 5800X" rfl
      (by
        intro l2 hl
        simp only [List.mem_singleton] at hl
        subst hl
        decide)
      (by decide) (by decide),
   cpu_resolver_correct.2.1 _
      (by
        intro l hl
        simp only [List.mem_singleton] at hl
        subst hl
        decide)⟩

/-- C8: the OS-name resolver returns the `PRETTY_NAME=` value trimmed of
surrounding quotes — `PRETTY_NAME="Test OS 1.0"` yields exactly
`Test OS 1.0` — and falls back to the runtime platform identifier when
the file is absent or no `PRETTY_NAME=` line exists. -/
theorem os_resolver_correct :
    (∀ g, getOS none g = g) ∧
    (∀ lines p l r g, lines = p ++ l :: r →
      (∀ l2 ∈ p, goStartsWith l2 "PRETTY_NAME=" = false) →
      goStartsWith l "PRETTY_NAME=" = true →
      getOS (some lines) g = goTrimChar (goAfterPref l "PRETTY_NAME=") '"') ∧
    (∀ lines g, (∀ l ∈ lines, goStartsWith l "PRETTY_NAME=" = false) →
      getOS (some lines) g = g) ∧
    (∀ g, getOS (some ["PRETTY_NAME=\"Test OS 1.0\""]) g = "Test OS 1.0") := by
  refine ⟨fun g => rfl, ?_, ?_, ?_⟩
  · intro lines p l r g hsplit hcl hm
    subst hsplit
    show scanOS (p ++ l :: r) g = _
    rw [scanOS_skip p (l :: r) g hcl]
    simp only [scanOS, hm, eq_self_iff_true, if_true]
  · intro lines g hcl
    exact scanOS_none lines g hcl
  · intro g
    show scanOS ["PRETTY_NAME=\"Test OS 1.0\""] g = "Test OS 1.0"
    simp only [scanOS]
    rw [if_pos (by decide : goStartsWith "PRETTY_NAME=\"Test OS 1.0\"" "PRETTY_NAME=" = true)]
    decide

/-- Witness for C8: the theorem applied at a concrete os-release
fragment, at content with no matching line, and at an absent file. -/
theorem os_resolver_correct_witness :
    getOS none "linux" = "linux" ∧
    getOS (some (["NAME=\"Debian\""] ++ "PRETTY_NAME=\"Debian 12\"" :: [])) "linux" =
      goTrimChar (goAfterPref "PRETTY_NAME=\"Debian 12\"" "PRETTY_NAME=") '"' ∧
    getOS (some ["NAME=\"Debian\""]) "linux" = "linux" :=
  ⟨os_resolver_correct.1 "linux",
   os_resolver_correct.2.1 _ ["NAME=\"Debian\""] "PRETTY_NAME=\"Debian 12\"" [] "linux" rfl
      (by
        intro l2 hl
        simp only [List.mem_singleton] at hl
        subst hl
        decide)
      (by decide),
   os_resolver_correct.2.2.1 _ "linux"
      (by
        intro l hl
        simp only [List.mem_singleton] at hl
        subst hl
        decide)⟩
